import Mathlib

/-!
Verification development for the VERO vehicle-report pipeline
(`server.py` / `client.py`).

Records are modelled as association lists of string keys and string
values (Python dicts preserving insertion order, no duplicate keys in
practice); a missing key raises, which is modelled with `Except`.
Falsy string values are exactly the empty string.
-/

namespace Vero

abbrev Record := List (String × String)

/-- Dict access `v[k]` as a total lookup: `some` of the value of the first binding of
`k`, `none` when `k` is absent (Python dict access would raise there). -/
def getVal : Record → String → Option String
  | [], _ => none
  | p :: r, k => if p.1 = k then some p.2 else getVal r k

/-- Dict assignment `v[k] = val`: replace the value of an existing binding in place,
or append a new binding (Python dict assignment). -/
def setVal : Record → String → String → Record
  | [], k, val => [(k, val)]
  | p :: r, k, val => if p.1 = k then (k, val) :: r else p :: setVal r k val

/-- The keys of a record, in order (`dict.keys()`). -/
def recordKeys (r : Record) : List String := r.map Prod.fst

-- Config constants shared by server.py and client.py.
def KEY_KURZNAME : String := "kurzname"
def KEY_LABELIDS : String := "labelIds"
def KEY_HU : String := "hu"
def KEY_COLORCODE : String := "colorCode"
def KEY_LABELCOLOR : String := "_labelColor"
def KEY_RNR : String := "rnr"
def KEY_GRUPPE : String := "gruppe"
def COLOR_GREEN : String := "007500"
def COLOR_ORANGE : String := "FFA500"
def COLOR_RED : String := "B30000"

/-! ## Reconciliation (server.py, `vehicles`, VARIANT 2 merge) -/

/-- One step of the VARIANT 2 merge:
`if ((key not in v) or (not v[key])): v[key] = av[key]`. -/
def mergeKey (v : Record) (kv : String × String) : Record :=
  match getVal v kv.1 with
  | none => setVal v kv.1 kv.2
  | some s => if s = "" then setVal v kv.1 kv.2 else v

/-- The merge loop `for key in av: ...` — fill every key of the matching authoritative
record that is absent or empty in the raw record. -/
def reconcileOne (v av : Record) : Record :=
  av.foldl mergeKey v

/-- The `activeVehiclesDict[v[KEY_KURZNAME]]` lookup on the dictionary built
from the authoritative list (identifier value → record; for a Python dict
built by repeated assignment the later duplicate wins, so the model list
is assumed to carry one binding per identifier where it matters). -/
def lookupDict (dict : List (String × Record)) (kz : String) : Option Record :=
  match dict with
  | [] => none
  | p :: rest => if p.1 = kz then some p.2 else lookupDict rest kz

/-- The per-vehicle update loop body of server.py lines 129-149:
skip (pass through unenriched) when no active vehicle matches, otherwise
merge with VARIANT 2; `v[KEY_KURZNAME]` raises when the key is absent. -/
def updateVehicle (dict : List (String × Record)) (v : Record) : Except String Record :=
  match getVal v KEY_KURZNAME with
  | none => Except.error "KeyError: kurzname"
  | some kz =>
    match lookupDict dict kz with
    | none => Except.ok v
    | some av => Except.ok (reconcileOne v av)

/-! ## Label color lookup and cache (server.py lines 59-76 and 156-164) -/

/-- Outcome of the HTTP call behind `getBaubuddyLabelColor`: either a
transport failure / non-200 status, or the first element of the JSON
body for the label. -/
inductive HttpResult where
  | failure : HttpResult
  | ok : Record → HttpResult

/-- Behaviour of `getBaubuddyLabelColor`: empty string on any failure or when
`colorCode` is missing from the response, otherwise the `colorCode`
value. -/
def getBaubuddyLabelColor (resp : HttpResult) : String :=
  match resp with
  | HttpResult.failure => ""
  | HttpResult.ok labelData =>
    match getVal labelData KEY_COLORCODE with
    | none => ""
    | some c => c

/-- The mutable state of the label pass: the `labelColors` cache dict and
the trace of label identifiers for which the remote lookup actually ran. -/
structure LabelState where
  cache : List (String × String)
  calls : List String
deriving DecidableEq

/-- The step `if id not in labelColors: labelColors[id] = getBaubuddyLabelColor(...)`
followed by reading `labelColors[id]`. `lookup` is the remote capability
(already collapsed to its returned string; failures return `""`). -/
def resolveLabel (lookup : String → String) (st : LabelState) (id : String) :
    String × LabelState :=
  match getVal st.cache id with
  | some c => (c, st)
  | none =>
    let c := lookup id
    (c, ⟨setVal st.cache id c, st.calls ++ [id]⟩)

/-- Python `s.strip()`: drop leading and trailing whitespace. -/
def pyStrip (s : String) : String :=
  ((s.toList.dropWhile Char.isWhitespace).reverse.dropWhile Char.isWhitespace).reverse.asString

/-- The first element of `s.strip().split(',')` — the loop over the split
list breaks after its first iteration, and `split(',')[0]` is exactly the
prefix of the stripped string before its first comma. Note the whole
string is stripped, the individual tokens are not. -/
def firstLabelId (s : String) : String :=
  ((pyStrip s).toList.takeWhile (fun c => c ≠ ',')).asString

/-- The per-vehicle body of the label pass:
`if v[KEY_LABELIDS]:` (KeyError when absent, skip when falsy) and then
resolution of the first label id and assignment of `_labelColor`. -/
def labelStep (lookup : String → String) (st : LabelState) (v : Record) :
    Except String (Record × LabelState) :=
  match getVal v KEY_LABELIDS with
  | none => Except.error "KeyError: labelIds"
  | some s =>
    if s = "" then Except.ok (v, st)
    else
      let res := resolveLabel lookup st (firstLabelId s)
      Except.ok (setVal v KEY_LABELCOLOR res.1, res.2)

/-- The whole loop `for v in vehicles:` of the label pass, threading the
cache state and keeping the records in order. -/
def labelPass (lookup : String → String) :
    List Record → LabelState → Except String (List Record × LabelState)
  | [], st => Except.ok ([], st)
  | v :: vs, st =>
    match labelStep lookup st v with
    | Except.error e => Except.error e
    | Except.ok p =>
      match labelPass lookup vs p.2 with
      | Except.error e => Except.error e
      | Except.ok q => Except.ok (p.1 :: q.1, q.2)

/-! ## Recency classification (client.py, `dateDiffMonths` / `colorByAge`) -/

structure Date where
  year : Int
  month : Int
  day : Int
deriving DecidableEq

/-- Whole-month difference `(d1.year - d2.year) * 12 + d1.month - d2.month`. -/
def dateDiffMonths (d1 d2 : Date) : Int :=
  (d1.year - d2.year) * 12 + d1.month - d2.month

def isLeapYear (y : Nat) : Bool :=
  (y % 4 == 0 && y % 100 != 0) || (y % 400 == 0)

def daysInMonth (y m : Nat) : Nat :=
  if m = 2 then (if isLeapYear y then 29 else 28)
  else if m = 4 ∨ m = 6 ∨ m = 9 ∨ m = 11 then 30
  else 31

/-- Split a character list on a separator character (Python `str.split`
with a one-character separator). -/
def splitOnChar (sep : Char) : List Char → List Char → List (List Char)
  | [], acc => [acc.reverse]
  | c :: cs, acc =>
    if c = sep then acc.reverse :: splitOnChar sep cs []
    else splitOnChar sep cs (c :: acc)

/-- A non-empty all-digit character sequence read as a number. -/
def parseNatDigits (cs : List Char) : Option Nat :=
  if cs ≠ [] ∧ cs.all Char.isDigit then
    some (cs.foldl (fun n c => n * 10 + (c.toNat - 48)) 0)
  else none

/-- Model of `datetime.strptime(dateStr, "%Y-%m-%d")`: three dash-separated
numeric components forming a valid calendar date, else no parse
(the Python call raises `ValueError` there). -/
def parseDate (s : String) : Option Date :=
  match splitOnChar '-' s.toList [] with
  | [ys, ms, ds] =>
    match parseNatDigits ys, parseNatDigits ms, parseNatDigits ds with
    | some y, some m, some d =>
      if 1 ≤ m ∧ m ≤ 12 ∧ 1 ≤ d ∧ d ≤ daysInMonth y m then
        some ⟨(y : Int), (m : Int), (d : Int)⟩
      else none
    | _, _, _ => none
  | _ => none

/-- The bucket logic of `colorByAge` after the date has been parsed:
no color when `monthsOld ≤ 0`, green up to 3 months, orange up to 12,
red beyond. -/
def colorByAgeParsed (today d : Date) : Option String :=
  let monthsOld := dateDiffMonths today d
  if monthsOld > 0 then
    if monthsOld ≤ 3 then some COLOR_GREEN
    else if monthsOld ≤ 12 then some COLOR_ORANGE
    else some COLOR_RED
  else none

/-- The function `colorByAge(dateStr)` with `datetime.now()` passed explicitly as
`today`; an unparsable date raises `ValueError` out of `strptime`. -/
def colorByAge (today : Date) (dateStr : String) : Except String (Option String) :=
  match parseDate dateStr with
  | none => Except.error "ValueError: strptime"
  | some d => Except.ok (colorByAgeParsed today d)

/-! ## Report assembly (client.py, `processVehicleData` / `createExcelFile`) -/

/-- Model of `list(dict.fromkeys(keys))`: de-duplicate keeping first occurrences,
via an accumulator of already-seen keys. -/
def dedupFirstAux (seen : List String) : List String → List String
  | [] => []
  | x :: xs =>
    if x ∈ seen then dedupFirstAux seen xs
    else x :: dedupFirstAux (x :: seen) xs

def dedupFirst (l : List String) : List String := dedupFirstAux [] l

/-- Key sanitization of `processVehicleData` lines 52-61: an empty or
missing key list becomes `[]`; otherwise drop keys absent from the first
sorted record's key set, drop `rnr`, and de-duplicate keeping order. -/
def sanitizeKeys (vehicles : List Record) (keys : List String) : List String :=
  match keys with
  | [] => []
  | _ :: _ =>
    match vehicles with
    | [] => []
    | v0 :: _ =>
      dedupFirst (keys.filter (fun k => decide (k ∈ recordKeys v0 ∧ k ≠ KEY_RNR)))

/-- The styled header row: `rnr` first, then the sanitized keys; bold is
set unconditionally (line 82), the grey fill only when `colored`. -/
structure HeaderStyle where
  cells : List String
  bold : Bool
  fill : Option String
deriving DecidableEq

def makeHeader (keys : List String) (colored : Bool) : HeaderStyle :=
  ⟨KEY_RNR :: keys, true, if colored then some "CCCCCC" else none⟩

/-- Column index `labelIdsIndex`: the 1-based worksheet column of `labelIds` (+1 more
for the leading `rnr` column) when requested, else `None`. -/
def labelIdsIndex (keys : List String) : Option Nat :=
  if KEY_LABELIDS ∈ keys then some (keys.indexOf KEY_LABELIDS + 2) else none

/-- Python truthiness of `Optional[int]`: `None` and `0` are falsy. -/
def truthyIndex : Option Nat → Bool
  | none => false
  | some n => n ≠ 0

/-- Hash stripping `v[_labelColor].lstrip(..)` of all leading hash characters. -/
def stripLeadHash (s : String) : String :=
  ((s.toList).dropWhile (fun c => c = '#')).asString

/-- The styling-relevant content of one emitted worksheet row. -/
structure RowStyle where
  cells : List String
  rowFill : Option String
  labelFont : Option String
  labelFill : Option String
deriving DecidableEq

/-- The cell loop `row.append(v[k])` over the sanitized keys; a missing key raises. -/
def mapCells (v : Record) : List String → Except String (List String)
  | [] => Except.ok []
  | k :: ks =>
    match getVal v k with
    | none => Except.error ("KeyError: " ++ k)
    | some s =>
      match mapCells v ks with
      | Except.error e => Except.error e
      | Except.ok rest => Except.ok (s :: rest)

/-- The row fill of lines 101-105: computed only when `colored`
(`v[hu]` raises a KeyError when absent, `colorByAge` a ValueError when
the date cannot be parsed), otherwise stays `None`. -/
def rowColorOf (today : Date) (colored : Bool) (v : Record) :
    Except String (Option String) :=
  match colored with
  | true =>
    match getVal v KEY_HU with
    | none => Except.error "KeyError: hu"
    | some hu => colorByAge today hu
  | false => Except.ok none

/-- The truthy `_labelColor` value of line 107 (`(KEY_LABELCOLOR in v)
and (v[KEY_LABELCOLOR])`): present and non-empty, else nothing. -/
def labelColorOf (v : Record) : Option String :=
  match getVal v KEY_LABELCOLOR with
  | some c => if c = "" then none else some c
  | none => none

/-- Lines 106-113: when a label column is selected and the record has a
truthy `_labelColor`, the label cell gets the font color (hash-stripped)
and — exactly when the row has a fill — a duplicate fill of the row
color; otherwise no cell-level styling. This is applied whether or not
`colored` is set. -/
def styleRow (lidx : Option Nat) (rowColor : Option String) (v : Record)
    (cells : List String) : RowStyle :=
  match truthyIndex lidx, labelColorOf v with
  | true, some c => ⟨cells, rowColor, some (stripLeadHash c), rowColor⟩
  | _, _ => ⟨cells, rowColor, none, none⟩

/-- The loop body of `createExcelFile` lines 93-115 for one record:
build the cells (`v[rnr]` first — KeyError when absent), compute the
row fill, then apply the label-cell styling. -/
def makeRow (today : Date) (keys : List String) (lidx : Option Nat)
    (colored : Bool) (v : Record) : Except String RowStyle :=
  match getVal v KEY_RNR with
  | none => Except.error "KeyError: rnr"
  | some rnr =>
    match mapCells v keys with
    | Except.error e => Except.error e
    | Except.ok rest =>
      match rowColorOf today colored v with
      | Except.error e => Except.error e
      | Except.ok rowColor => Except.ok (styleRow lidx rowColor v (rnr :: rest))

/-- The loop `for v in vehicles:` of `createExcelFile`, collecting the rows. -/
def makeRows (today : Date) (keys : List String) (lidx : Option Nat)
    (colored : Bool) : List Record → Except String (List RowStyle)
  | [] => Except.ok []
  | v :: vs =>
    match makeRow today keys lidx colored v with
    | Except.error e => Except.error e
    | Except.ok r =>
      match makeRows today keys lidx colored vs with
      | Except.error e => Except.error e
      | Except.ok rs => Except.ok (r :: rs)

/-- The assembled in-memory document (header styling plus rows with
their styling); file serialization is an external concern. -/
structure Report where
  header : HeaderStyle
  rows : List RowStyle
deriving DecidableEq

/-- Model of `createExcelFile(vehicles, keys, colored)` up to the point where the
workbook is saved: `keys` are the already-sanitized extra columns. -/
def createExcelFile (today : Date) (vehicles : List Record)
    (keys : List String) (colored : Bool) : Except String Report :=
  match makeRows today keys (labelIdsIndex keys) colored vehicles with
  | Except.error e => Except.error e
  | Except.ok rows => Except.ok ⟨makeHeader keys colored, rows⟩

/-! ### Basic record lemmas -/

theorem getVal_setVal_self (r : Record) (k val : String) :
    getVal (setVal r k val) k = some val := by
  induction r with
  | nil => simp [setVal, getVal]
  | cons p r ih =>
    by_cases h : p.1 = k
    · simp [setVal, h, getVal]
    · simp [setVal, h, getVal, ih]

theorem getVal_setVal_ne (r : Record) (k k' val : String) (h : k' ≠ k) :
    getVal (setVal r k' val) k = getVal r k := by
  induction r with
  | nil => simp [setVal, getVal, h]
  | cons p r ih =>
    by_cases hp : p.1 = k'
    · simp [setVal, hp, getVal, h, Ne.symm h]
    · by_cases hk : p.1 = k
      · simp [setVal, hp, getVal, hk, Ne.symm h]
      · simp [setVal, hp, getVal, hk, ih]

theorem getVal_mergeKey_nonempty (v : Record) (kv : String × String) (k s : String)
    (h : getVal v k = some s) (hs : s ≠ "") :
    getVal (mergeKey v kv) k = some s := by
  unfold mergeKey
  by_cases hk : kv.1 = k
  · subst hk
    rw [h]
    simp [hs, h]
  · cases hv : getVal v kv.1 with
    | none => rw [getVal_setVal_ne v k kv.1 kv.2 hk, h]
    | some t =>
      by_cases ht : t = ""
      · simp [ht, getVal_setVal_ne v k kv.1 kv.2 hk, h]
      · simp [ht, h]

theorem getVal_reconcileOne_nonempty (v av : Record) (k s : String)
    (h : getVal v k = some s) (hs : s ≠ "") :
    getVal (reconcileOne v av) k = some s := by
  unfold reconcileOne
  induction av generalizing v with
  | nil => simpa using h
  | cons kv rest ih =>
    simp only [List.foldl_cons]
    exact ih (mergeKey v kv) (getVal_mergeKey_nonempty v kv k s h hs)

/-- C1: for a raw record with a matching authoritative record, the merge
fills only absent-or-empty fields; every non-empty raw field keeps its
raw value. -/
theorem reconcile_fill_missing (dict : List (String × Record)) (v av : Record)
    (kz : String) (hkz : getVal v KEY_KURZNAME = some kz)
    (hmatch : lookupDict dict kz = some av) (k : String) :
    updateVehicle dict v = Except.ok (reconcileOne v av) ∧
    (∀ s, getVal v k = some s → s ≠ "" → getVal (reconcileOne v av) k = some s) ∧
    (getVal (reconcileOne v av) k ≠ getVal v k →
      (getVal v k = none ∨ getVal v k = some "")) := by
  refine ⟨?_, ?_, ?_⟩
  · simp [updateVehicle, hkz, hmatch]
  · intro s h hs
    exact getVal_reconcileOne_nonempty v av k s h hs
  · intro hne
    cases h : getVal v k with
    | none => exact Or.inl rfl
    | some s =>
      by_cases hs : s = ""
      · subst hs
        exact Or.inr rfl
      · exact absurd ((getVal_reconcileOne_nonempty v av k s h hs).trans h.symm) hne

/-- C2: for every parsable date string, the classification is determined
solely by the whole-month difference (day-of-month ignored), with buckets
none for `monthsOld ≤ 0`, green for `0 < monthsOld ≤ 3`, orange for
`3 < monthsOld ≤ 12`, red for `monthsOld > 12`. -/
theorem colorByAge_buckets (today : Date) (str : String) (d : Date)
    (hp : parseDate str = some d) :
    colorByAge today str = Except.ok (colorByAgeParsed today d) ∧
    (∀ d2 : Date, dateDiffMonths today d2 = dateDiffMonths today d →
      colorByAgeParsed today d2 = colorByAgeParsed today d) ∧
    (∀ n : Int, colorByAgeParsed today ⟨d.year, d.month, n⟩ = colorByAgeParsed today d) ∧
    (dateDiffMonths today d ≤ 0 → colorByAgeParsed today d = none) ∧
    (0 < dateDiffMonths today d → dateDiffMonths today d ≤ 3 →
      colorByAgeParsed today d = some COLOR_GREEN) ∧
    (3 < dateDiffMonths today d → dateDiffMonths today d ≤ 12 →
      colorByAgeParsed today d = some COLOR_ORANGE) ∧
    (12 < dateDiffMonths today d → colorByAgeParsed today d = some COLOR_RED) := by
  have hdiff : ∀ d2 : Date, dateDiffMonths today d2 = dateDiffMonths today d →
      colorByAgeParsed today d2 = colorByAgeParsed today d := by
    intro d2 h
    unfold colorByAgeParsed
    rw [h]
  refine ⟨by simp [colorByAge, hp], hdiff, ?_, ?_, ?_, ?_, ?_⟩
  · intro n
    exact hdiff ⟨d.year, d.month, n⟩ rfl
  · intro h
    unfold colorByAgeParsed
    simp only []
    split_ifs <;> first | rfl | omega
  · intro h1 h2
    unfold colorByAgeParsed
    simp only []
    split_ifs <;> first | rfl | omega
  · intro h1 h2
    unfold colorByAgeParsed
    simp only []
    split_ifs <;> first | rfl | omega
  · intro h1
    unfold colorByAgeParsed
    simp only []
    split_ifs <;> first | rfl | omega

/-- Witness for C2 at a concrete input: on 2026-10-12, the date
2026-07-31 is exactly 3 whole months old and classified green. -/
theorem colorByAge_buckets_witness :
    colorByAgeParsed ⟨2026, 10, 12⟩ ⟨2026, 7, 31⟩ = some COLOR_GREEN :=
  (colorByAge_buckets ⟨2026, 10, 12⟩ "2026-07-31" ⟨2026, 7, 31⟩ rfl).2.2.2.2.1
    (by decide) (by decide)

/-- C3 counterexample: a `labelIds` value of a single space is empty
after trimming, yet the code still sets `_labelColor` (to the resolver
result for the empty identifier), because the emptiness test uses the
untrimmed value. -/
theorem labelColor_trim_cex :
    pyStrip " " = "" ∧
    (labelStep (fun _ => "c0") ⟨[], []⟩ [(KEY_LABELIDS, " ")]).map
      (fun p => getVal p.1 KEY_LABELCOLOR) = Except.ok (some "c0") :=
  ⟨rfl, rfl⟩

/-- C3 amended: for a record not already carrying `_labelColor`, the
label pass sets `_labelColor` iff the `labelIds` field is present with a
non-empty raw value (truthiness of the untrimmed string); when set, the
value is the resolver's color for the first comma-separated token of the
whole-stripped string (tokens are not individually trimmed), so tokens
after the first never influence it. -/
theorem labelColor_set_iff (lookup : String → String) (st : LabelState)
    (v r : Record) (st2 : LabelState)
    (hn : getVal v KEY_LABELCOLOR = none)
    (h : labelStep lookup st v = Except.ok (r, st2)) :
    ((getVal r KEY_LABELCOLOR).isSome ↔
      ∃ s, getVal v KEY_LABELIDS = some s ∧ s ≠ "") ∧
    (∀ s, getVal v KEY_LABELIDS = some s → s ≠ "" →
      getVal r KEY_LABELCOLOR = some (resolveLabel lookup st (firstLabelId s)).1 ∧
      st2 = (resolveLabel lookup st (firstLabelId s)).2) := by
  unfold labelStep at h
  cases hl : getVal v KEY_LABELIDS with
  | none =>
    rw [hl] at h
    cases h
  | some s =>
    rw [hl] at h
    by_cases hs : s = ""
    · subst hs
      simp only [if_pos, Except.ok.injEq, Prod.mk.injEq] at h
      obtain ⟨h1, h2⟩ := h
      subst h1
      subst h2
      constructor
      · simp only [hn, Option.isSome_none, Bool.false_eq_true, false_iff]
        rintro ⟨t, ht, hne⟩
        exact hne (Option.some.inj ht).symm
      · intro t ht hne
        exact absurd (Option.some.inj ht).symm hne
    · simp only [hs, if_neg, if_false, Except.ok.injEq, Prod.mk.injEq] at h
      obtain ⟨h1, h2⟩ := h
      subst h1
      subst h2
      constructor
      · simp only [getVal_setVal_self, Option.isSome_some, true_iff]
        exact ⟨s, rfl, hs⟩
      · intro t ht _
        cases Option.some.inj ht
        exact ⟨getVal_setVal_self v KEY_LABELCOLOR _, rfl⟩

/-- Witness for C3 (amended) at a concrete input: `labelIds = "7,8"`
yields `_labelColor` from the resolver result for token `7`. -/
theorem labelColor_set_iff_witness :
    getVal [(KEY_LABELIDS, "7,8"), (KEY_LABELCOLOR, "c1")] KEY_LABELCOLOR
      = some (resolveLabel (fun _ => "c1") ⟨[], []⟩ (firstLabelId "7,8")).1 :=
  ((labelColor_set_iff (fun _ => "c1") ⟨[], []⟩ [(KEY_LABELIDS, "7,8")]
      [(KEY_LABELIDS, "7,8"), (KEY_LABELCOLOR, "c1")] ⟨[("7", "c1")], ["7"]⟩
      rfl rfl).2 "7,8" rfl (by decide)).1

/-! ### Cache invariant for the label pass -/

/-- The call trace lists exactly the cached identifiers, without
repetition. -/
def CacheInv (st : LabelState) : Prop :=
  st.calls.Nodup ∧ ∀ y, y ∈ st.calls ↔ (getVal st.cache y).isSome

theorem getVal_setVal_isSome (r : Record) (k val y : String) :
    (getVal (setVal r k val) y).isSome = true ↔
      (y = k ∨ (getVal r y).isSome = true) := by
  by_cases hy : y = k
  · subst hy
    simp [getVal_setVal_self]
  · rw [getVal_setVal_ne r y k val (fun hk => hy hk.symm)]
    simp [hy]

theorem resolveLabel_cacheInv (lookup : String → String) (st : LabelState)
    (x : String) (h : CacheInv st) : CacheInv (resolveLabel lookup st x).2 := by
  unfold resolveLabel
  cases hc : getVal st.cache x with
  | some c => exact h
  | none =>
    obtain ⟨hnd, hiff⟩ := h
    constructor
    · rw [List.nodup_append]
      refine ⟨hnd, List.nodup_singleton x, ?_⟩
      intro a ha hax
      rw [List.mem_singleton] at hax
      subst hax
      have := (hiff a).mp ha
      rw [hc] at this
      cases this
    · intro y
      rw [List.mem_append, List.mem_singleton, getVal_setVal_isSome, hiff y]
      tauto

theorem labelStep_cacheInv (lookup : String → String) (st : LabelState)
    (v r : Record) (st2 : LabelState) (hinv : CacheInv st)
    (h : labelStep lookup st v = Except.ok (r, st2)) : CacheInv st2 := by
  unfold labelStep at h
  cases hl : getVal v KEY_LABELIDS with
  | none =>
    rw [hl] at h
    cases h
  | some s =>
    rw [hl] at h
    by_cases hs : s = ""
    · subst hs
      simp only [if_pos, Except.ok.injEq, Prod.mk.injEq] at h
      exact h.2 ▸ hinv
    · simp only [hs, if_neg, if_false, Except.ok.injEq, Prod.mk.injEq] at h
      exact h.2 ▸ resolveLabel_cacheInv lookup st (firstLabelId s) hinv

theorem labelPass_cacheInv (lookup : String → String) (vs : List Record)
    (st : LabelState) (out : List Record × LabelState) (hinv : CacheInv st)
    (h : labelPass lookup vs st = Except.ok out) : CacheInv out.2 := by
  induction vs generalizing st out with
  | nil =>
    unfold labelPass at h
    cases h
    exact hinv
  | cons v rest ih =>
    unfold labelPass at h
    cases hstep : labelStep lookup st v with
    | error e =>
      rw [hstep] at h
      cases h
    | ok p =>
      rw [hstep] at h
      dsimp only [] at h
      cases hrest : labelPass lookup rest p.2 with
      | error e =>
        rw [hrest] at h
        cases h
      | ok q =>
        rw [hrest] at h
        cases h
        exact ih p.2 q (labelStep_cacheInv lookup st v p.1 p.2 hinv hstep) hrest

/-- C4: within one run the cache makes resolution idempotent — a cached
identifier is answered from the cache with no state change, an uncached
identifier triggers the remote lookup once and stores its result
(whatever it is, including an empty failure result), and over a whole
label pass each identifier is looked up remotely at most once. -/
theorem label_cache_at_most_once (lookup : String → String) :
    (∀ (st : LabelState) (x c : String), getVal st.cache x = some c →
      resolveLabel lookup st x = (c, st)) ∧
    (∀ (st : LabelState) (x : String), getVal st.cache x = none →
      resolveLabel lookup st x =
        (lookup x, ⟨setVal st.cache x (lookup x), st.calls ++ [x]⟩)) ∧
    (∀ (vehicles : List Record) (out : List Record × LabelState) (x : String),
      labelPass lookup vehicles ⟨[], []⟩ = Except.ok out →
      out.2.calls.count x ≤ 1) := by
  refine ⟨?_, ?_, ?_⟩
  · intro st x c h
    unfold resolveLabel
    rw [h]
  · intro st x h
    unfold resolveLabel
    rw [h]
  · intro vehicles out x h
    have hinv : CacheInv out.2 := by
      refine labelPass_cacheInv lookup vehicles ⟨[], []⟩ out ⟨List.nodup_nil, ?_⟩ h
      intro y
      simp [getVal]
    exact List.nodup_iff_count_le_one.mp hinv.1 x

/-- Witness for C4 at a concrete input: two vehicles with the same label
identifier produce a single remote call. -/
theorem label_cache_at_most_once_witness :
    (LabelState.mk [("7", "c1")] ["7"]).calls.count "7" ≤ 1 :=
  (label_cache_at_most_once (fun _ => "c1")).2.2
    [[(KEY_LABELIDS, "7")], [(KEY_LABELIDS, "7")]]
    ([[(KEY_LABELIDS, "7"), (KEY_LABELCOLOR, "c1")],
      [(KEY_LABELIDS, "7"), (KEY_LABELCOLOR, "c1")]],
     LabelState.mk [("7", "c1")] ["7"]) "7" rfl

/-! ### Column sanitization lemmas -/

theorem mem_dedupFirstAux (l : List String) : ∀ (seen : List String) (a : String),
    a ∈ dedupFirstAux seen l ↔ (a ∈ l ∧ a ∉ seen) := by
  induction l with
  | nil =>
    intro seen a
    simp [dedupFirstAux]
  | cons x xs ih =>
    intro seen a
    unfold dedupFirstAux
    by_cases hx : x ∈ seen
    · rw [if_pos hx, ih]
      simp only [List.mem_cons]
      constructor
      · rintro ⟨ha, hs⟩
        exact ⟨Or.inr ha, hs⟩
      · rintro ⟨rfl | ha, hs⟩
        · exact absurd hx hs
        · exact ⟨ha, hs⟩
    · rw [if_neg hx]
      simp only [List.mem_cons, ih, List.mem_cons]
      constructor
      · rintro (rfl | ⟨ha, hs⟩)
        · exact ⟨Or.inl rfl, hx⟩
        · exact ⟨Or.inr ha, fun hc => hs (Or.inr hc)⟩
      · rintro ⟨rfl | ha, hs⟩
        · exact Or.inl rfl
        · by_cases hax : a = x
          · exact Or.inl hax
          · exact Or.inr ⟨ha, fun hc => hc.elim hax hs⟩

theorem dedupFirstAux_sublist (l : List String) :
    ∀ seen, (dedupFirstAux seen l).Sublist l := by
  induction l with
  | nil =>
    intro seen
    simp [dedupFirstAux]
  | cons x xs ih =>
    intro seen
    unfold dedupFirstAux
    by_cases hx : x ∈ seen
    · rw [if_pos hx]
      exact (ih seen).trans (List.sublist_cons_of_sublist x (List.Sublist.refl xs))
    · rw [if_neg hx]
      exact (ih (x :: seen)).cons₂ x

theorem pairwise_mono_mem {R S : String → String → Prop} :
    ∀ (l : List String), (∀ a b, a ∈ l → b ∈ l → R a b → S a b) →
      l.Pairwise R → l.Pairwise S := by
  intro l
  induction l with
  | nil =>
    intro _ _
    exact List.Pairwise.nil
  | cons x xs ih =>
    intro hmono hp
    rw [List.pairwise_cons] at hp ⊢
    refine ⟨?_, ?_⟩
    · intro b hb
      exact hmono x b (List.mem_cons_self x xs) (List.mem_cons_of_mem x hb) (hp.1 b hb)
    · exact ih (fun a b ha hb => hmono a b (List.mem_cons_of_mem x ha) (List.mem_cons_of_mem x hb)) hp.2

theorem dedupFirstAux_pairwise (l : List String) : ∀ seen,
    (dedupFirstAux seen l).Pairwise (fun a b => l.indexOf a < l.indexOf b) := by
  induction l with
  | nil =>
    intro seen
    simp [dedupFirstAux]
  | cons x xs ih =>
    intro seen
    unfold dedupFirstAux
    by_cases hx : x ∈ seen
    · rw [if_pos hx]
      refine pairwise_mono_mem (dedupFirstAux seen xs) ?_ (ih seen)
      intro a b ha hb hr
      have hna : a ≠ x := fun hc => ((mem_dedupFirstAux xs seen a).mp ha).2 (hc ▸ hx)
      have hnb : b ≠ x := fun hc => ((mem_dedupFirstAux xs seen b).mp hb).2 (hc ▸ hx)
      rw [List.indexOf_cons_ne xs (Ne.symm hna), List.indexOf_cons_ne xs (Ne.symm hnb)]
      omega
    · rw [if_neg hx]
      rw [List.pairwise_cons]
      refine ⟨?_, ?_⟩
      · intro b hb
        have hmem := (mem_dedupFirstAux xs (x :: seen) b).mp hb
        have hnb : b ≠ x := fun hc => hmem.2 (hc ▸ List.mem_cons_self x seen)
        rw [List.indexOf_cons_self, List.indexOf_cons_ne xs (Ne.symm hnb)]
        omega
      · refine pairwise_mono_mem (dedupFirstAux (x :: seen) xs) ?_ (ih (x :: seen))
        intro a b ha hb hr
        have hna : a ≠ x := fun hc =>
          ((mem_dedupFirstAux xs (x :: seen) a).mp ha).2 (hc ▸ List.mem_cons_self x seen)
        have hnb : b ≠ x := fun hc =>
          ((mem_dedupFirstAux xs (x :: seen) b).mp hb).2 (hc ▸ List.mem_cons_self x seen)
        rw [List.indexOf_cons_ne xs (Ne.symm hna), List.indexOf_cons_ne xs (Ne.symm hnb)]
        omega

/-- Members of a filtered list keep their relative first-occurrence
order from the original list, for a value-determined predicate. -/
theorem indexOf_filter_lt (p : String → Bool) :
    ∀ (l : List String) (a b : String), p a = true → p b = true →
      (l.filter p).indexOf a < (l.filter p).indexOf b →
      l.indexOf a < l.indexOf b := by
  intro l
  induction l with
  | nil =>
    intro a b _ _ h
    simp [List.filter] at h
  | cons x xs ih =>
    intro a b hpa hpb h
    by_cases hpx : p x = true
    · rw [List.filter_cons_of_pos hpx] at h
      by_cases hax : x = a
      · subst hax
        rw [List.indexOf_cons_self]
        by_cases hbx : x = b
        · subst hbx
          rw [List.indexOf_cons_self] at h
          omega
        · rw [List.indexOf_cons_ne xs hbx]
          omega
      · by_cases hbx : x = b
        · subst hbx
          rw [List.indexOf_cons_self] at h
          omega
        · rw [List.indexOf_cons_ne _ hax, List.indexOf_cons_ne _ hbx] at h ⊢
          have := ih a b hpa hpb (by omega)
          omega
    · rw [List.filter_cons_of_neg (by simpa using hpx)] at h
      have hax : x ≠ a := fun hc => hpx (hc ▸ hpa)
      have hbx : x ≠ b := fun hc => hpx (hc ▸ hpb)
      rw [List.indexOf_cons_ne _ hax, List.indexOf_cons_ne _ hbx]
      have := ih a b hpa hpb h
      omega

/-- C5: the final header is the mandatory `rnr` column first and exactly
once, followed by the requested names restricted to the records' field
set, with `rnr` removed and duplicates removed keeping first-occurrence
order. -/
theorem columns_sanitized (vehicles : List Record) (v0 : Record)
    (rest : List Record) (keys : List String) (colored : Bool)
    (hv : vehicles = v0 :: rest) :
    ((makeHeader (sanitizeKeys vehicles keys) colored).cells
        = KEY_RNR :: sanitizeKeys vehicles keys) ∧
    ((makeHeader (sanitizeKeys vehicles keys) colored).cells.head? = some KEY_RNR) ∧
    ((makeHeader (sanitizeKeys vehicles keys) colored).cells.count KEY_RNR = 1) ∧
    (∀ a, a ∈ sanitizeKeys vehicles keys ↔
      (a ∈ keys ∧ a ∈ recordKeys v0 ∧ a ≠ KEY_RNR)) ∧
    (sanitizeKeys vehicles keys).Sublist keys ∧
    (sanitizeKeys vehicles keys).Nodup ∧
    (sanitizeKeys vehicles keys).Pairwise
      (fun a b => keys.indexOf a < keys.indexOf b) := by
  subst hv
  have hmem : ∀ a, a ∈ sanitizeKeys (v0 :: rest) keys ↔
      (a ∈ keys ∧ a ∈ recordKeys v0 ∧ a ≠ KEY_RNR) := by
    intro a
    cases keys with
    | nil => simp [sanitizeKeys]
    | cons k ks =>
      unfold sanitizeKeys dedupFirst
      rw [mem_dedupFirstAux]
      simp only [List.mem_filter, List.not_mem_nil, not_false_iff, and_true,
        decide_eq_true_eq]
  have hpair : (sanitizeKeys (v0 :: rest) keys).Pairwise
      (fun a b => keys.indexOf a < keys.indexOf b) := by
    cases keys with
    | nil => simp [sanitizeKeys]
    | cons k ks =>
      unfold sanitizeKeys dedupFirst
      refine pairwise_mono_mem _ ?_ (dedupFirstAux_pairwise _ [])
      intro a b ha hb hr
      have hfa := (List.mem_filter.mp ((mem_dedupFirstAux _ [] a).mp ha).1).2
      have hfb := (List.mem_filter.mp ((mem_dedupFirstAux _ [] b).mp hb).1).2
      exact indexOf_filter_lt _ (k :: ks) a b hfa hfb hr
  have hnodup : (sanitizeKeys (v0 :: rest) keys).Nodup := by
    refine pairwise_mono_mem _ ?_ hpair
    intro a b _ _ hr heq
    subst heq
    omega
  have hrnr : KEY_RNR ∉ sanitizeKeys (v0 :: rest) keys := by
    intro hc
    exact ((hmem KEY_RNR).mp hc).2.2 rfl
  refine ⟨rfl, rfl, ?_, hmem, ?_, hnodup, hpair⟩
  · simp only [makeHeader, List.count_cons_self]
    rw [List.count_eq_zero_of_not_mem hrnr]
  · cases keys with
    | nil => simp [sanitizeKeys]
    | cons k ks =>
      unfold sanitizeKeys dedupFirst
      exact (dedupFirstAux_sublist _ []).trans (List.filter_sublist _)

/-- Witness for C5 at the concrete input from the specification:
requesting `["gruppe","bogus","gruppe","kurzname"]` on records carrying
`gruppe` and `kurzname` yields the columns `[rnr, gruppe, kurzname]`. -/
theorem columns_sanitized_witness :
    (makeHeader (sanitizeKeys
        [[(KEY_RNR, "1"), (KEY_GRUPPE, "g"), (KEY_KURZNAME, "A")]]
        ["gruppe", "bogus", "gruppe", "kurzname"]) false).cells
      = [KEY_RNR, "gruppe", "kurzname"] := by
  have h := (columns_sanitized
      [[(KEY_RNR, "1"), (KEY_GRUPPE, "g"), (KEY_KURZNAME, "A")]]
      [(KEY_RNR, "1"), (KEY_GRUPPE, "g"), (KEY_KURZNAME, "A")] []
      ["gruppe", "bogus", "gruppe", "kurzname"] false rfl).1
  rw [h]
  rfl

/-- Witness for C1 at a concrete input: a non-empty `hu` value in the raw
record survives reconciliation against an authoritative record that would
overwrite it. -/
theorem reconcile_fill_missing_witness :
    getVal (reconcileOne [(KEY_KURZNAME, "A"), (KEY_HU, "2022-05-01")]
        [(KEY_HU, "2023-01-01"), (KEY_LABELIDS, "7")]) KEY_HU = some "2022-05-01" :=
  (reconcile_fill_missing [("A", [(KEY_HU, "2023-01-01"), (KEY_LABELIDS, "7")])]
      [(KEY_KURZNAME, "A"), (KEY_HU, "2022-05-01")]
      [(KEY_HU, "2023-01-01"), (KEY_LABELIDS, "7")] "A" rfl rfl KEY_HU).2.1
    "2022-05-01" rfl (by decide)

/-! ### Inversion lemmas for report assembly -/

theorem makeRow_ok (today : Date) (keys : List String) (lidx : Option Nat)
    (colored : Bool) (v : Record) (r : RowStyle)
    (h : makeRow today keys lidx colored v = Except.ok r) :
    ∃ rnr rest rowColor,
      getVal v KEY_RNR = some rnr ∧
      mapCells v keys = Except.ok rest ∧
      rowColorOf today colored v = Except.ok rowColor ∧
      r = styleRow lidx rowColor v (rnr :: rest) := by
  unfold makeRow at h
  cases h1 : getVal v KEY_RNR with
  | none =>
    rw [h1] at h
    cases h
  | some rnr =>
    rw [h1] at h
    cases h2 : mapCells v keys with
    | error e =>
      rw [h2] at h
      cases h
    | ok rest =>
      rw [h2] at h
      cases h3 : rowColorOf today colored v with
      | error e =>
        rw [h3] at h
        cases h
      | ok rowColor =>
        rw [h3] at h
        injection h with h4
        exact ⟨rnr, rest, rowColor, rfl, rfl, rfl, h4.symm⟩

theorem makeRows_ok_mem (today : Date) (keys : List String) (lidx : Option Nat)
    (colored : Bool) : ∀ (vs : List Record) (rows : List RowStyle),
    makeRows today keys lidx colored vs = Except.ok rows →
    ∀ r ∈ rows, ∃ v, v ∈ vs ∧ makeRow today keys lidx colored v = Except.ok r := by
  intro vs
  induction vs with
  | nil =>
    intro rows h r hr
    unfold makeRows at h
    injection h with h1
    subst h1
    cases hr
  | cons v rest ih =>
    intro rows h r hr
    unfold makeRows at h
    cases h1 : makeRow today keys lidx colored v with
    | error e =>
      rw [h1] at h
      cases h
    | ok r0 =>
      rw [h1] at h
      cases h2 : makeRows today keys lidx colored rest with
      | error e =>
        rw [h2] at h
        cases h
      | ok rows0 =>
        rw [h2] at h
        injection h with h3
        subst h3
        rcases List.mem_cons.mp hr with rfl | hr0
        · exact ⟨v, List.mem_cons_self v rest, h1⟩
        · obtain ⟨u, hu, hrow⟩ := ih rows0 h2 r hr0
          exact ⟨u, List.mem_cons_of_mem v hu, hrow⟩

theorem createExcelFile_ok (today : Date) (vehicles : List Record)
    (keys : List String) (colored : Bool) (rep : Report)
    (h : createExcelFile today vehicles keys colored = Except.ok rep) :
    rep.header = makeHeader keys colored ∧
    makeRows today keys (labelIdsIndex keys) colored vehicles = Except.ok rep.rows := by
  unfold createExcelFile at h
  cases h1 : makeRows today keys (labelIdsIndex keys) colored vehicles with
  | error e =>
    rw [h1] at h
    cases h
  | ok rows =>
    rw [h1] at h
    injection h with h2
    subst h2
    exact ⟨rfl, rfl⟩

theorem labelColorOf_eq_some (v : Record) (c : String) :
    labelColorOf v = some c ↔ (getVal v KEY_LABELCOLOR = some c ∧ c ≠ "") := by
  unfold labelColorOf
  cases h : getVal v KEY_LABELCOLOR with
  | none => simp
  | some c0 =>
    dsimp only []
    by_cases h0 : c0 = ""
    · subst h0
      simp only [if_pos rfl]
      constructor
      · rintro ⟨⟩
      · rintro ⟨h1, h2⟩
        exact absurd (Option.some.inj h1).symm h2
    · rw [if_neg h0]
      constructor
      · rintro h1
        cases Option.some.inj h1
        exact ⟨rfl, h0⟩
      · rintro ⟨h1, _⟩
        exact h1

theorem styleRow_cases (lidx : Option Nat) (rowColor : Option String)
    (v : Record) (cells : List String) :
    (truthyIndex lidx = true ∧ ∃ c, labelColorOf v = some c ∧
      styleRow lidx rowColor v cells = ⟨cells, rowColor, some (stripLeadHash c), rowColor⟩) ∨
    (styleRow lidx rowColor v cells = ⟨cells, rowColor, none, none⟩) := by
  unfold styleRow
  cases h1 : truthyIndex lidx with
  | false => exact Or.inr rfl
  | true =>
    cases h2 : labelColorOf v with
    | none => exact Or.inr rfl
    | some c => exact Or.inl ⟨rfl, c, rfl, rfl⟩

/-- C6 counterexample: with the color flag off, the header row is still
styled bold and a label cell still receives a font color, so the claim
that no styling at all happens when the flag is false fails. -/
theorem styling_flag_cex :
    (makeHeader ["gruppe"] false).bold = true ∧
    (makeRow ⟨2026, 10, 12⟩ [KEY_LABELIDS] (labelIdsIndex [KEY_LABELIDS]) false
        [(KEY_RNR, "1"), (KEY_LABELIDS, "7"), (KEY_LABELCOLOR, "#FF0000")]).map
      RowStyle.labelFont = Except.ok (some "FF0000") :=
  ⟨rfl, rfl⟩

/-- C6 amended: with the color flag off no background fill of any kind
is applied — no header fill, no recency row fill, no duplicate
label-cell fill — but the header bold weight is set unconditionally and
label-cell font colors are applied regardless of the flag. -/
theorem uncolored_report_no_fills (today : Date) (vehicles : List Record)
    (keys : List String) (rep : Report)
    (h : createExcelFile today vehicles keys false = Except.ok rep) :
    rep.header.bold = true ∧ rep.header.fill = none ∧
    ∀ r ∈ rep.rows, r.rowFill = none ∧ r.labelFill = none := by
  obtain ⟨hhead, hrows⟩ := createExcelFile_ok today vehicles keys false rep h
  refine ⟨by rw [hhead]; rfl, by rw [hhead]; rfl, ?_⟩
  intro r hr
  obtain ⟨v, _, hrow⟩ := makeRows_ok_mem today keys (labelIdsIndex keys) false
    vehicles rep.rows hrows r hr
  obtain ⟨rnr, rest, rowColor, _, _, h3, h4⟩ := makeRow_ok _ _ _ _ _ _ hrow
  have hnone : rowColor = none := by
    unfold rowColorOf at h3
    injection h3 with h5
    exact h5.symm
  subst hnone
  subst h4
  rcases styleRow_cases (labelIdsIndex keys) none v (rnr :: rest) with
    ⟨_, c, _, heq⟩ | heq
  · rw [heq]
    exact ⟨rfl, rfl⟩
  · rw [heq]
    exact ⟨rfl, rfl⟩

/-- Witness for C6 (amended) at a concrete input. -/
theorem uncolored_report_no_fills_witness :
    (Report.mk ⟨[KEY_RNR], true, none⟩ [⟨["1"], none, none, none⟩]).header.fill
      = none :=
  (uncolored_report_no_fills ⟨2026, 10, 12⟩ [[(KEY_RNR, "1")]] []
    (Report.mk ⟨[KEY_RNR], true, none⟩ [⟨["1"], none, none, none⟩]) rfl).2.1

/-- C7: in a row where both a row fill and a label font color apply, the
label cell gets its own duplicate fill equal to the row fill; when the
row has no fill, the label cell gets no fill either. -/
theorem label_cell_fill_precedence (today : Date) (keys : List String)
    (lidx : Option Nat) (colored : Bool) (v : Record) (r : RowStyle)
    (h : makeRow today keys lidx colored v = Except.ok r) :
    (∀ c, r.rowFill = some c → r.labelFont.isSome = true → r.labelFill = some c) ∧
    (r.rowFill = none → r.labelFill = none) := by
  obtain ⟨rnr, rest, rowColor, _, _, _, h4⟩ := makeRow_ok _ _ _ _ _ _ h
  subst h4
  rcases styleRow_cases lidx rowColor v (rnr :: rest) with ⟨_, c, _, heq⟩ | heq
  · rw [heq]
    exact ⟨fun c0 hc _ => hc, fun hc => hc⟩
  · rw [heq]
    exact ⟨fun c0 _ hfont => (by cases hfont), fun _ => rfl⟩

/-- Witness for C7 at a concrete input: a green row with a label color
gets the duplicate green fill on the label cell. -/
theorem label_cell_fill_precedence_witness :
    (RowStyle.mk ["1", "7"] (some COLOR_GREEN) (some "AB0000") (some COLOR_GREEN)).labelFill
      = some COLOR_GREEN :=
  (label_cell_fill_precedence ⟨2026, 10, 12⟩ [KEY_LABELIDS]
      (labelIdsIndex [KEY_LABELIDS]) true
      [(KEY_RNR, "1"), (KEY_HU, "2026-08-15"), (KEY_LABELIDS, "7"),
        (KEY_LABELCOLOR, "#AB0000")]
      (RowStyle.mk ["1", "7"] (some COLOR_GREEN) (some "AB0000") (some COLOR_GREEN))
      rfl).1 COLOR_GREEN rfl rfl

/-- C8 counterexample: with styling on, a record whose date field is
unparsable makes report creation abort with an error instead of being
treated as the `none` bucket. -/
theorem invalid_date_cex :
    parseDate "notadate" = none ∧
    createExcelFile ⟨2026, 10, 12⟩
      [[(KEY_RNR, "1"), (KEY_GRUPPE, "g"), (KEY_HU, "notadate")]] [] true
      = Except.error "ValueError: strptime" :=
  ⟨rfl, rfl⟩

theorem mapCells_ok_of_present (v : Record) : ∀ (keys : List String),
    (∀ k ∈ keys, (getVal v k).isSome = true) →
    ∃ rest, mapCells v keys = Except.ok rest := by
  intro keys
  induction keys with
  | nil =>
    intro _
    exact ⟨[], rfl⟩
  | cons k ks ih =>
    intro hall
    have hk := hall k (List.mem_cons_self k ks)
    cases h1 : getVal v k with
    | none =>
      rw [h1] at hk
      cases hk
    | some s =>
      obtain ⟨rest, hrest⟩ := ih (fun k2 hk2 => hall k2 (List.mem_cons_of_mem k hk2))
      refine ⟨s :: rest, ?_⟩
      unfold mapCells
      rw [h1, hrest]

/-- C8 amended: with styling on, a record whose date field cannot be
parsed makes the classification raise and the whole report creation
abort with that error; no report is produced. -/
theorem invalid_date_aborts (today : Date) (keys : List String) (v : Record)
    (vs : List Record) (rnr hu : String)
    (hrnr : getVal v KEY_RNR = some rnr)
    (hcells : ∀ k ∈ keys, (getVal v k).isSome = true)
    (hhu : getVal v KEY_HU = some hu) (hbad : parseDate hu = none) :
    createExcelFile today (v :: vs) keys true
      = Except.error "ValueError: strptime" := by
  obtain ⟨rest, hrest⟩ := mapCells_ok_of_present v keys hcells
  have hrow : makeRow today keys (labelIdsIndex keys) true v
      = Except.error "ValueError: strptime" := by
    unfold makeRow
    rw [hrnr, hrest]
    have hcolor : rowColorOf today true v = Except.error "ValueError: strptime" := by
      unfold rowColorOf
      rw [hhu]
      dsimp only []
      unfold colorByAge
      rw [hbad]
    rw [hcolor]
  unfold createExcelFile makeRows
  rw [hrow]

/-- Witness for C8 (amended) at a concrete input. -/
theorem invalid_date_aborts_witness :
    createExcelFile ⟨2026, 10, 12⟩ [[(KEY_RNR, "9"), (KEY_HU, "13.37")]] [] true
      = Except.error "ValueError: strptime" :=
  invalid_date_aborts ⟨2026, 10, 12⟩ [] [(KEY_RNR, "9"), (KEY_HU, "13.37")] []
    "9" "13.37" rfl (by intro k hk; cases hk) rfl rfl

/-- C9 counterexample: a sanitized column (present in the first record)
missing from a later record raises a KeyError and aborts report
creation instead of emitting an empty cell. -/
theorem missing_value_cex :
    sanitizeKeys
      [[(KEY_RNR, "1"), (KEY_GRUPPE, "a"), ("extra", "x")],
        [(KEY_RNR, "2"), (KEY_GRUPPE, "b")]] ["extra"] = ["extra"] ∧
    createExcelFile ⟨2026, 10, 12⟩
      [[(KEY_RNR, "1"), (KEY_GRUPPE, "a"), ("extra", "x")],
        [(KEY_RNR, "2"), (KEY_GRUPPE, "b")]] ["extra"] false
      = Except.error "KeyError: extra" :=
  ⟨rfl, rfl⟩

theorem mapCells_error_of_missing (v : Record) : ∀ (keys : List String),
    (∃ k, k ∈ keys ∧ getVal v k = none) →
    ∃ e, mapCells v keys = Except.error e := by
  intro keys
  induction keys with
  | nil =>
    rintro ⟨k, hk, _⟩
    cases hk
  | cons k0 ks ih =>
    rintro ⟨k, hk, hmiss⟩
    cases h1 : getVal v k0 with
    | none =>
      refine ⟨"KeyError: " ++ k0, ?_⟩
      unfold mapCells
      rw [h1]
    | some s =>
      rcases List.mem_cons.mp hk with rfl | hk0
      · rw [h1] at hmiss
        cases hmiss
      · obtain ⟨e, he⟩ := ih ⟨k, hk0, hmiss⟩
        refine ⟨e, ?_⟩
        unfold mapCells
        rw [h1, he]

theorem makeRow_error_of_missing (today : Date) (keys : List String)
    (lidx : Option Nat) (colored : Bool) (v : Record)
    (h : getVal v KEY_RNR = none ∨ ∃ k, k ∈ keys ∧ getVal v k = none) :
    ∃ e, makeRow today keys lidx colored v = Except.error e := by
  cases h1 : getVal v KEY_RNR with
  | none =>
    refine ⟨"KeyError: rnr", ?_⟩
    unfold makeRow
    rw [h1]
  | some rnr =>
    rcases h with hmiss | hmiss
    · rw [h1] at hmiss
      cases hmiss
    · obtain ⟨e, he⟩ := mapCells_error_of_missing v keys hmiss
      unfold makeRow
      rw [h1, he]
      exact ⟨e, rfl⟩

theorem makeRows_error_of_member (today : Date) (keys : List String)
    (lidx : Option Nat) (colored : Bool) : ∀ (vs1 : List Record)
    (v : Record) (vs2 : List Record),
    (∃ e0, makeRow today keys lidx colored v = Except.error e0) →
    ∃ e, makeRows today keys lidx colored (vs1 ++ v :: vs2) = Except.error e := by
  intro vs1
  induction vs1 with
  | nil =>
    rintro v vs2 ⟨e0, he0⟩
    refine ⟨e0, ?_⟩
    rw [List.nil_append]
    unfold makeRows
    rw [he0]
  | cons u us ih =>
    rintro v vs2 hv
    rw [List.cons_append]
    cases h1 : makeRow today keys lidx colored u with
    | error e =>
      refine ⟨e, ?_⟩
      unfold makeRows
      rw [h1]
    | ok r =>
      obtain ⟨e, he⟩ := ih v vs2 hv
      refine ⟨e, ?_⟩
      unfold makeRows
      rw [h1, he]

/-- C9 amended: row emission is not total — a record lacking the
mandatory `rnr` field or one of the sanitized columns at emission time
raises a KeyError that aborts report creation; the missing value is not
emitted as an empty cell. -/
theorem row_emission_not_total (today : Date) (keys : List String)
    (colored : Bool) (vs1 vs2 : List Record) (v : Record)
    (h : getVal v KEY_RNR = none ∨ ∃ k, k ∈ keys ∧ getVal v k = none) :
    ∃ e, createExcelFile today (vs1 ++ v :: vs2) keys colored
      = Except.error e := by
  obtain ⟨e, he⟩ := makeRows_error_of_member today keys (labelIdsIndex keys)
    colored vs1 v vs2 (makeRow_error_of_missing today keys (labelIdsIndex keys) colored v h)
  refine ⟨e, ?_⟩
  unfold createExcelFile
  rw [he]

/-- Witness for C9 (amended) at a concrete input. -/
theorem row_emission_not_total_witness :
    ∃ e, createExcelFile ⟨2026, 10, 12⟩
      ([[(KEY_RNR, "1"), ("info", "x")]] ++ [(KEY_RNR, "2")] :: []) ["info"] false
      = Except.error e :=
  row_emission_not_total ⟨2026, 10, 12⟩ ["info"] false
    [[(KEY_RNR, "1"), ("info", "x")]] [] [(KEY_RNR, "2")]
    (Or.inr ⟨"info", List.mem_cons_self "info" [], rfl⟩)

/-- C10: a failed or colorless remote lookup yields the empty string,
which is still stored in `_labelColor`; the assembler puts a font color
on the label cell only when `_labelColor` is present and non-empty, so
such a record gets an unstyled cell and no error. -/
theorem failed_lookup_unstyled (lookup : String → String) (st : LabelState)
    (v : Record) (s : String)
    (hs : getVal v KEY_LABELIDS = some s) (hne : s ≠ "")
    (hnc : getVal st.cache (firstLabelId s) = none)
    (hfail : lookup (firstLabelId s) = "")
    (today : Date) (keys : List String) (lidx : Option Nat) (colored : Bool) :
    getBaubuddyLabelColor HttpResult.failure = "" ∧
    (∀ data : Record, getVal data KEY_COLORCODE = none →
      getBaubuddyLabelColor (HttpResult.ok data) = "") ∧
    (∃ st2, labelStep lookup st v
        = Except.ok (setVal v KEY_LABELCOLOR "", st2)) ∧
    getVal (setVal v KEY_LABELCOLOR "") KEY_LABELCOLOR = some "" ∧
    (∀ rowColor cells,
      (styleRow lidx rowColor (setVal v KEY_LABELCOLOR "") cells).labelFont = none) ∧
    (∀ (v2 : Record) (r : RowStyle),
      makeRow today keys lidx colored v2 = Except.ok r →
      r.labelFont.isSome = true →
      ∃ c, getVal v2 KEY_LABELCOLOR = some c ∧ c ≠ "") := by
  refine ⟨rfl, ?_, ?_, getVal_setVal_self v KEY_LABELCOLOR "", ?_, ?_⟩
  · intro data hd
    unfold getBaubuddyLabelColor
    dsimp only []
    rw [hd]
  · refine ⟨(resolveLabel lookup st (firstLabelId s)).2, ?_⟩
    unfold labelStep
    rw [hs]
    dsimp only []
    rw [if_neg hne]
    have hres : (resolveLabel lookup st (firstLabelId s)).1 = "" := by
      unfold resolveLabel
      rw [hnc]
      exact hfail
    rw [hres]
  · intro rowColor cells
    unfold styleRow
    have hlc : labelColorOf (setVal v KEY_LABELCOLOR "") = none := by
      unfold labelColorOf
      rw [getVal_setVal_self]
      simp
    rw [hlc]
    cases truthyIndex lidx <;> rfl
  · intro v2 r hrow hfont
    obtain ⟨rnr, rest, rowColor, _, _, _, h4⟩ := makeRow_ok _ _ _ _ _ _ hrow
    subst h4
    rcases styleRow_cases lidx rowColor v2 (rnr :: rest) with ⟨_, c, hc, heq⟩ | heq
    · exact ⟨c, (labelColorOf_eq_some v2 c).mp hc⟩
    · rw [heq] at hfont
      cases hfont

/-- Witness for C10 at a concrete input: an unknown label id resolved by
a failing lookup stores `""` in `_labelColor`. -/
theorem failed_lookup_unstyled_witness :
    getVal (setVal [(KEY_LABELIDS, "99")] KEY_LABELCOLOR "") KEY_LABELCOLOR
      = some "" :=
  (failed_lookup_unstyled (fun _ => "") ⟨[], []⟩ [(KEY_LABELIDS, "99")] "99"
    rfl (by decide) rfl rfl ⟨2026, 10, 12⟩ [] none false).2.2.2.1

end Vero
